import Mathlib

/-!
Verification of the road-network attribution pipeline of the RCL-Tools
repository (`ProcRoads.py`, `ProcOSM.py`).

The per-record field-calculator codeblocks are shallowly embedded as pure
Lean functions.  Machine integers are modelled as `ℤ`, floating-point
constants as exact rationals in `ℚ`, Python `None`-able speed fields as
`Option ℤ`.  The ArcGIS geoprocessing primitives used by the dedup and
junction steps (`CountOverlappingFeatures`, `SpatialJoin`, `Sort`,
`DeleteIdentical`, `Dissolve UNSPLIT_LINES`, `FeatureVerticesToPoints
BOTH_ENDS`, `SelectLayerByLocation INTERSECT`) are modelled over an
atom-set geometry: a line geometry is the list of atomic locations it
covers, a polyline is its ordered vertex list.
-/

namespace RCLTools

/-! ## Virginia RCL field calculators (`PrepRoadsVA_tt`, ProcRoads.py lines 56-120) -/

/-- `Flg` codeblock (ProcRoads.py lines 56-63): flags records with suspect
`LOCAL_SPEED_MPH` values.  `-1` = set speed to walking pace, `1` = rederive
speed from `MTFCC`, `0` = keep posted speed.  Python's
`not speed or speed == 0` is `none`-or-zero on the `Option ℤ` model. -/
def Flg (seg_exists : String) (speed : Option ℤ) : ℤ :=
  if seg_exists = "N" then -1
  else
    match speed with
    | none => 1
    | some v => if v = 0 ∨ v % 5 ≠ 0 then 1 else 0

/-- The `MTFCC` codes given a class-default speed by the `SpdUpd` codeblock. -/
def vaTableCodes : List String :=
  ["S1100", "S1100HOV", "S1200", "S1200LOC", "S1200PRI", "S1300", "S1640",
   "S1630", "C3061", "C3062", "S1400", "S1740", "S1500", "S1730", "S1780", "S1820"]

/-- `SpdUpd` codeblock (ProcRoads.py lines 71-90): the `SPEED_upd` field of a
Virginia RCL record.  On the unflagged branch the posted value is returned
unchanged (hence `Option ℤ` in and out). -/
def SpdUpd (flgfld : ℤ) (mtfcc : String) (speed : Option ℤ) : Option ℤ :=
  if flgfld = 1 then
    if mtfcc = "S1100" ∨ mtfcc = "S1100HOV" then some 55
    else if mtfcc ∈ (["S1200", "S1200LOC", "S1200PRI", "S1300", "S1640"] : List String) then some 45
    else if mtfcc = "S1630" then some 30
    else if mtfcc ∈ (["C3061", "C3062", "S1400", "S1740"] : List String) then some 25
    else if mtfcc ∈ (["S1500", "S1730", "S1780"] : List String) then some 15
    else if mtfcc = "S1820" then some 10
    else some 3
  else if flgfld = -1 then some 3
  else speed

/-- `TravTime` expression `0.037/ !SPEED_upd!` (ProcRoads.py lines 98 and 206),
identical in `PrepRoadsVA_tt` and `PrepRoadsTIGER_tt`. -/
def TravTime (speed : ℤ) : ℚ := 0.037 / speed

/-- `RmpHwy` codeblock of `PrepRoadsVA_tt` (ProcRoads.py lines 105-111):
limited-access highway = 2, ramp = 1, anything else = 0. -/
def RmpHwy (mtfcc : String) : ℤ :=
  if mtfcc = "S1100" ∨ mtfcc = "S1100HOV" then 2
  else if mtfcc = "S1630" then 1
  else 0

/-! ## TIGER field calculators (`PrepRoadsTIGER_tt`, ProcRoads.py lines 154-228) -/

/-- `Speed` codeblock (ProcRoads.py lines 158-184): class-default speeds for
TIGER (census) records from `MTFCC` and `RTTYP`. -/
def Speed (mtfcc : String) (rttyp : String) : ℤ :=
  if mtfcc = "S1100" then
    if rttyp = "I" then 70 else 65
  else if mtfcc ∈ (["S1200", "S1640"] : List String) then
    if rttyp ∈ (["I", "S", "U"] : List String) then 55 else 45
  else if mtfcc = "S1630" then 30
  else if mtfcc ∈ (["C3061", "C3062", "S1400", "S1740"] : List String) then 25
  else if mtfcc ∈ (["S1500", "S1730", "S1780"] : List String) then 15
  else if mtfcc = "S1820" then 10
  else 3

/-- Urban-area `Speed(Speed_upd)` codeblock (ProcRoads.py lines 193-197),
applied to the clip of the roads to the urban areas: subtract 10 mph when the
current speed exceeds 30. -/
def urbanSpeed (spd : ℤ) : ℤ :=
  if 30 < spd then spd - 10 else spd

/-- `RmpHwy` codeblock of `PrepRoadsTIGER_tt` (ProcRoads.py lines 213-219);
textually identical to the Virginia one. -/
def RmpHwyTiger (mtfcc : String) : ℤ :=
  if mtfcc = "S1100" ∨ mtfcc = "S1100HOV" then 2
  else if mtfcc = "S1630" then 1
  else 0

/-! ## OSM attribution functions (ProcOSM.py lines 145-223) -/

/-- `rmpHwy` (ProcOSM.py lines 145-152). -/
def rmpHwy (code : ℤ) : ℤ :=
  if code = 5111 then 2
  else if code = 5131 then 1
  else 0

/-- The tuple of driving-road codes guarding the `maxspeed` branch of `mph`
(ProcOSM.py line 157). -/
def osmDrivingCodes : List ℤ :=
  [5111, 5112, 5113, 5114, 5115, 5121, 5122, 5123, 5131, 5132, 5133, 5134,
   5135, 5141, 5142, 5143, 5144, 5145, 5146, 5147]

/-- Every OSM `code` value that receives a class-default speed in the else
branch of `mph` (ProcOSM.py lines 161-208); any other code falls to the
`s = -1` error catch. -/
def osmSpeedCodes : List ℤ :=
  [5111, 5112, 5113, 5114, 5115, 5121, 5122, 5123, 5124, 5153, 5154, 5155,
   5199, 5131, 5132, 5133, 5134, 5135, 5141, 5142, 5143, 5144, 5145, 5146,
   5147, 5151, 5152]

/-- The class-default table inside the else branch of `mph`
(ProcOSM.py lines 161-211), before the urban adjustment; unknown codes give
the `-1` error-catch sentinel. -/
def osmBase (code : ℤ) : ℤ :=
  if code = 5111 then 70
  else if code = 5112 then 65
  else if code = 5113 then 55
  else if code = 5114 then 45
  else if code = 5115 then 35
  else if code ∈ ([5121, 5122] : List ℤ) then 25
  else if code = 5123 then 15
  else if code ∈ ([5124, 5153, 5154, 5155, 5199] : List ℤ) then 3
  else if code ∈ ([5131, 5132, 5133, 5134, 5135] : List ℤ) then 30
  else if code ∈ ([5141, 5142] : List ℤ) then 15
  else if code = 5143 then 25
  else if code = 5144 then 20
  else if code = 5145 then 15
  else if code = 5146 then 10
  else if code = 5147 then 5
  else if code ∈ ([5151, 5152] : List ℤ) then 10
  else -1

/-- `mph` (ProcOSM.py lines 155-217).  `maxspeed` is the posted speed in kph
(an integer field), `ua` the 0/1 urban-area attribute.  Python's
`int(0.5 + maxspeed * 0.621371)` truncates toward zero; on the executed
branch `maxspeed ≥ 40` makes the operand positive, so it equals
`⌊(maxspeed * 621371 + 500000) / 1000000⌋`, written below as integer
division on `ℤ` (exact rational model of the float constant). -/
def mph (maxspeed : ℤ) (code : ℤ) (ua : ℤ) : ℤ :=
  if 40 ≤ maxspeed ∧ code ∈ osmDrivingCodes then
    (maxspeed * 621371 + 500000) / 1000000
  else
    let s := osmBase code
    if ua = 1 then
      if 30 < s then s - 10 else s
    else s

/-- `tt` (ProcOSM.py lines 220-223): travel time in minutes for a segment of
`length_m` meters at `speed_mph`. -/
def tt (length_m : ℚ) (speed_mph : ℤ) : ℚ :=
  0.03728 * length_m / speed_mph

/-! ## `RemoveDupRoads` (ProcRoads.py lines 755-776)

A road segment carries its `UniqueID`, its `Speed_upd` value and its line
geometry, modelled as the list of atomic locations the line covers.
`CountOverlappingFeatures` planarizes the inputs into regions on which the
set of covering inputs is constant; the spatial join (`JOIN_ONE_TO_MANY`,
`WITHIN`) then emits one row per (region, covering road); `Sort` on
`Speed_upd DESCENDING` (stable) and `DeleteIdentical` on `TARGET_FID` keep,
for every region, the first row of highest speed. -/

/-- A road record entering `RemoveDupRoads`. -/
structure Seg where
  id : String
  speed : ℤ
  geom : List ℕ
deriving DecidableEq

/-- The roads covering atomic location `a` (the constant covering set of the
planar region containing `a`). -/
def cover (segs : List Seg) (a : ℕ) : List Seg :=
  segs.filter (fun s => a ∈ s.geom)

/-- All atomic locations covered by some input road. -/
def atoms (segs : List Seg) : List ℕ :=
  (segs.flatMap (fun s => s.geom)).dedup

/-- The output regions of `CountOverlappingFeatures` ("over0"), identified by
their covering set: one region per distinct nonempty covering set. -/
def regions (segs : List Seg) : List (List Seg) :=
  ((atoms segs).map (cover segs)).dedup

/-- The spatial-join table "road1": one row per (region, road within which the
region lies); a region lies within exactly the roads that cover it. -/
def dupRows (segs : List Seg) : List (List Seg × Seg) :=
  (regions segs).flatMap (fun c => c.map (fun s => (c, s)))

/-- One step of the stable descending-by-`Speed_upd` sort: insert `x` behind
every earlier row of speed at least `x`'s. -/
def insertDesc (x : List Seg × Seg) : List (List Seg × Seg) → List (List Seg × Seg)
  | [] => [x]
  | y :: ys => if y.2.speed < x.2.speed then x :: y :: ys else y :: insertDesc x ys

/-- `Sort_management` on `[["Speed_upd", "DESCENDING"]]`, modelled as a stable
insertion sort (rows of equal speed keep their join order). -/
def sortSpeedDesc (l : List (List Seg × Seg)) : List (List Seg × Seg) :=
  l.foldl (fun acc x => insertDesc x acc) []

/-- `DeleteIdentical_management` on a key field: keep the first record of each
key value, in record order.  `seen` holds the key values already kept. -/
def delIdentAux {α κ : Type} [DecidableEq κ] (key : α → κ) : List κ → List α → List α
  | _, [] => []
  | seen, r :: rs =>
    if key r ∈ seen then delIdentAux key seen rs
    else r :: delIdentAux key (key r :: seen) rs

/-- `DeleteIdentical_management` on a key field. -/
def delIdentical {α κ : Type} [DecidableEq κ] (key : α → κ) (l : List α) : List α :=
  delIdentAux key [] l

/-- `RemoveDupRoads` (ProcRoads.py lines 768-773): overlap regions, spatial
join, stable sort by descending speed, delete-identical on `TARGET_FID`. -/
def RemoveDupRoads (segs : List Seg) : List (List Seg × Seg) :=
  delIdentical (fun r => r.1) (sortSpeedDesc (dupRows segs))

/-! ## `RampPts` (ProcRoads.py lines 273-330)

A road is its `MTFCC` code plus its ordered vertex list.  The default layer
where-clauses are `MTFCC = 'S1100'` (highway), `MTFCC = 'S1630'` (ramp) and
`MTFCC NOT IN ('S1100', 'S1630')` (local).  `FeatureVerticesToPoints
BOTH_ENDS` yields the first and last vertex; a point INTERSECTs a line when
it coincides with one of its vertices; `Dissolve` with `UNSPLIT_LINES`
merges highway lines wherever exactly two line ends meet, so the endpoints
of the dissolved highways are the original highway endpoints at which the
number of incident highway line ends differs from two.  The four
`CalculateField`/`Append` blocks are `case1Pts` to `case4Pts` below, and the
final `DeleteIdentical` on `Shape` keeps the first point at each location. -/

/-- A road record entering `RampPts`: `MTFCC` code and polyline vertices. -/
structure Rd where
  mtfcc : String
  pts : List ℕ
deriving DecidableEq

/-- `FeatureVerticesToPoints` with `BOTH_ENDS`: first and last vertex. -/
def endpoints (r : Rd) : List ℕ :=
  match r.pts with
  | [] => []
  | p :: ps => [p, (p :: ps).getLast (List.cons_ne_nil p ps)]

/-- The highway layer (`MTFCC = 'S1100'`). -/
def hwys (roads : List Rd) : List Rd :=
  roads.filter (fun r => r.mtfcc = "S1100")

/-- The ramp layer (`MTFCC = 'S1630'`). -/
def ramps (roads : List Rd) : List Rd :=
  roads.filter (fun r => r.mtfcc = "S1630")

/-- The local layer (`MTFCC NOT IN ('S1100', 'S1630')`). -/
def locs (roads : List Rd) : List Rd :=
  roads.filter (fun r => ¬(r.mtfcc = "S1100" ∨ r.mtfcc = "S1630"))

/-- "tmp_r1": both endpoints of every ramp segment. -/
def rampEnds (roads : List Rd) : List ℕ :=
  (ramps roads).flatMap endpoints

/-- All highway line ends (with multiplicity), before dissolving. -/
def hwyEndsRaw (roads : List Rd) : List ℕ :=
  (hwys roads).flatMap endpoints

/-- "he1": endpoints of the dissolved (`UNSPLIT_LINES`) highway layer — the
highway line ends where the number of incident highway line ends is not two
(at exactly two incident ends the dissolve merges the lines through). -/
def dissEnds (roads : List Rd) : List ℕ :=
  (hwyEndsRaw roads).dedup.filter (fun p => ¬(hwyEndsRaw roads).count p = 2)

/-- `SelectLayerByLocation INTERSECT` of a point against a line layer. -/
def touches (p : ℕ) (rs : List Rd) : Bool :=
  rs.any (fun r => p ∈ r.pts)

/-- Case 1 (lines 287-292): ramp endpoints intersecting a highway,
`junction = 1`. -/
def case1Pts (roads : List Rd) : List (ℕ × ℤ) :=
  ((rampEnds roads).filter (fun p => touches p (hwys roads))).map (fun p => (p, 1))

/-- Case 2 (lines 294-303): dissolved-highway endpoints intersecting a ramp,
`junction = 1`. -/
def case2Pts (roads : List Rd) : List (ℕ × ℤ) :=
  ((dissEnds roads).filter (fun p => touches p (ramps roads))).map (fun p => (p, 1))

/-- Case 3 (lines 305-312): ramp endpoints intersecting a local road,
`junction = 2`. -/
def case3Pts (roads : List Rd) : List (ℕ × ℤ) :=
  ((rampEnds roads).filter (fun p => touches p (locs roads))).map (fun p => (p, 2))

/-- Local roads sharing an endpoint with the dissolved highway ends
(lines 316-317, `BOUNDARY_TOUCHES`). -/
def selLocs (roads : List Rd) : List Rd :=
  (locs roads).filter (fun l => (endpoints l).any (fun p => p ∈ dissEnds roads))

/-- Case 4 (lines 315-324): dissolved-highway endpoints intersecting a
selected local road but no ramp, `junction = 3`. -/
def case4Pts (roads : List Rd) : List (ℕ × ℤ) :=
  (((dissEnds roads).filter (fun p => touches p (selLocs roads))).filter
      (fun p => ¬touches p (ramps roads))).map (fun p => (p, 3))

/-- `RampPts` output: the four appended point sets, then `DeleteIdentical`
on `Shape` (first point kept per location). -/
def RampPts (roads : List Rd) : List (ℕ × ℤ) :=
  delIdentical (fun q => q.1)
    (case1Pts roads ++ case2Pts roads ++ case3Pts roads ++ case4Pts roads)

/-! ## General facts about `delIdentAux` -/

section DelIdent

variable {α κ : Type} [DecidableEq κ] (key : α → κ)

theorem delIdentAux_subset :
    ∀ (seen : List κ) (l : List α) (x : α), x ∈ delIdentAux key seen l → x ∈ l := by
  intro seen l
  induction l generalizing seen with
  | nil => simp [delIdentAux]
  | cons r rs ih =>
    intro x hx
    rw [delIdentAux] at hx
    by_cases h : key r ∈ seen
    · rw [if_pos h] at hx
      exact List.mem_cons_of_mem _ (ih seen x hx)
    · rw [if_neg h] at hx
      rcases List.mem_cons.mp hx with h1 | h2
      · exact h1 ▸ List.mem_cons_self _ _
      · exact List.mem_cons_of_mem _ (ih _ x h2)

theorem delIdentAux_keys_nodup :
    ∀ (seen : List κ) (l : List α),
    ((delIdentAux key seen l).map key).Nodup ∧
      ∀ x ∈ delIdentAux key seen l, key x ∉ seen := by
  intro seen l
  induction l generalizing seen with
  | nil => simp [delIdentAux]
  | cons r rs ih =>
    rw [delIdentAux]
    by_cases h : key r ∈ seen
    · rw [if_pos h]; exact ih seen
    · rw [if_neg h]
      obtain ⟨hnd, hav⟩ := ih (key r :: seen)
      refine ⟨List.nodup_cons.mpr ⟨?_, hnd⟩, ?_⟩
      · intro hc
        rcases List.mem_map.mp hc with ⟨y, hy, hkey⟩
        exact hav y hy (hkey ▸ List.mem_cons_self _ _)
      · intro x hx
        rcases List.mem_cons.mp hx with h1 | h2
        · exact h1 ▸ h
        · intro hs
          exact hav x h2 (List.mem_cons_of_mem _ hs)

theorem delIdentAux_keeps :
    ∀ (l₁ l₂ : List α) (seen : List κ) (p : κ) (x : α),
    (∃ y ∈ l₁, key y = p) → (∀ y ∈ l₁, key y = p → y = x) → p ∉ seen →
    x ∈ delIdentAux key seen (l₁ ++ l₂) := by
  intro l₁
  induction l₁ with
  | nil => rintro l₂ seen p x ⟨y, hy, _⟩ _ _; exact absurd hy (List.not_mem_nil y)
  | cons r rs ih =>
    rintro l₂ seen p x ⟨y, hy, hyp⟩ huniq hseen
    rw [List.cons_append, delIdentAux]
    by_cases h : key r ∈ seen
    · rw [if_pos h]
      have hry : y ∈ rs := by
        rcases List.mem_cons.mp hy with h1 | h2
        · exact absurd (show p ∈ seen by rw [← hyp, h1]; exact h) hseen
        · exact h2
      exact ih l₂ seen p x ⟨y, hry, hyp⟩
        (fun z hz hzp => huniq z (List.mem_cons_of_mem _ hz) hzp) hseen
    · rw [if_neg h]
      by_cases hrp : key r = p
      · exact (huniq r (List.mem_cons_self _ _) hrp) ▸ List.mem_cons_self _ _
      · have hry : y ∈ rs := by
          rcases List.mem_cons.mp hy with h1 | h2
          · exact absurd (h1 ▸ hyp) hrp
          · exact h2
        refine List.mem_cons_of_mem _ (ih l₂ (key r :: seen) p x ⟨y, hry, hyp⟩
          (fun z hz hzp => huniq z (List.mem_cons_of_mem _ hz) hzp) ?_)
        intro hc
        rcases List.mem_cons.mp hc with h1 | h2
        · exact hrp h1.symm
        · exact hseen h2

theorem delIdentAux_length :
    ∀ (seen : List κ) (l : List α),
    (delIdentAux key seen l).length = ((l.map key).toFinset \ seen.toFinset).card := by
  intro seen l
  induction l generalizing seen with
  | nil => simp [delIdentAux]
  | cons r rs ih =>
    rw [delIdentAux]
    by_cases h : key r ∈ seen
    · rw [if_pos h, ih seen]
      congr 1
      rw [List.map_cons, List.toFinset_cons,
        Finset.insert_sdiff_of_mem _ (List.mem_toFinset.mpr h)]
    · rw [if_neg h, List.length_cons, ih (key r :: seen)]
      rw [List.map_cons, List.toFinset_cons, List.toFinset_cons,
        Finset.sdiff_insert,
        Finset.insert_sdiff_of_not_mem _ (fun hc => h (List.mem_toFinset.mp hc))]
      set U := (rs.map key).toFinset \ seen.toFinset with hU
      by_cases hk : key r ∈ U
      · rw [Finset.insert_eq_self.mpr hk]
        exact Finset.card_erase_add_one hk
      · rw [Finset.erase_eq_of_not_mem hk, Finset.card_insert_of_not_mem hk]

theorem delIdentical_filter_key_eq {l : List α} {x : α}
    (hn : ((l.map key)).Nodup) (hx : x ∈ l) :
    l.filter (fun a => key a = key x) = [x] := by
  induction l with
  | nil => exact absurd hx (List.not_mem_nil x)
  | cons r rs ih =>
    rw [List.map_cons, List.nodup_cons] at hn
    rcases List.mem_cons.mp hx with h1 | h2
    · subst h1
      rw [List.filter_cons_of_pos (by simp)]
      have : rs.filter (fun a => key a = key x) = [] := by
        rw [List.filter_eq_nil_iff]
        intro a ha
        simp only [decide_eq_true_eq]
        intro hc
        exact hn.1 (hc ▸ List.mem_map_of_mem key ha)
      rw [this]
    · have hne : ¬(key r = key x) := by
        intro hc
        exact hn.1 (hc ▸ List.mem_map_of_mem key h2)
      rw [List.filter_cons_of_neg (by simpa using hne)]
      exact ih hn.2 h2

end DelIdent

/-! ## General facts about the stable sort and the dedup pipeline -/

open scoped List

theorem list_toFinset_map {α β : Type} [DecidableEq α] [DecidableEq β]
    (f : α → β) (l : List α) : (l.map f).toFinset = l.toFinset.image f := by
  ext b
  simp

theorem insertDesc_perm (x : List Seg × Seg) (l : List (List Seg × Seg)) :
    insertDesc x l ~ x :: l := by
  induction l with
  | nil => rfl
  | cons y ys ih =>
    rw [insertDesc]
    by_cases h : y.2.speed < x.2.speed
    · rw [if_pos h]
    · rw [if_neg h]
      exact (ih.cons y).trans (List.Perm.swap x y ys)

theorem foldl_insertDesc_perm :
    ∀ (l acc : List (List Seg × Seg)),
    l.foldl (fun a x => insertDesc x a) acc ~ acc ++ l := by
  intro l
  induction l with
  | nil => simp
  | cons x xs ih =>
    intro acc
    calc (x :: xs).foldl (fun a x => insertDesc x a) acc
        = xs.foldl (fun a x => insertDesc x a) (insertDesc x acc) := rfl
      _ ~ insertDesc x acc ++ xs := ih _
      _ ~ (x :: acc) ++ xs := (insertDesc_perm x acc).append_right xs
      _ ~ acc ++ x :: xs := by
          rw [List.cons_append]
          exact (List.perm_middle).symm

theorem sortSpeedDesc_perm (l : List (List Seg × Seg)) : sortSpeedDesc l ~ l :=
  foldl_insertDesc_perm l []

/-- Every region produced by `CountOverlappingFeatures` has a nonempty
covering set. -/
theorem mem_regions_ne_nil {segs : List Seg} {c : List Seg}
    (hc : c ∈ regions segs) : c ≠ [] := by
  rw [regions, List.mem_dedup] at hc
  rcases List.mem_map.mp hc with ⟨a, ha, rfl⟩
  rw [atoms, List.mem_dedup, List.mem_flatMap] at ha
  rcases ha with ⟨s, hs, hsa⟩
  exact List.ne_nil_of_mem (List.mem_filter.mpr ⟨hs, by simpa using hsa⟩)

/-- The distinct spatial-join keys are exactly the regions. -/
theorem dupRows_keys_toFinset (segs : List Seg) :
    ((dupRows segs).map Prod.fst).toFinset = (regions segs).toFinset := by
  apply List.toFinset.ext
  intro c
  simp only [dupRows, List.mem_map, List.mem_flatMap]
  constructor
  · rintro ⟨⟨c', s⟩, ⟨c'', hc'', hmem⟩, rfl⟩
    rcases hmem with ⟨t, _, ht⟩
    obtain ⟨rfl, rfl⟩ := Prod.mk.injEq .. ▸ ht
    exact hc''
  · intro hc
    have hne := mem_regions_ne_nil hc
    rcases List.exists_mem_of_ne_nil c hne with ⟨s, hs⟩
    exact ⟨(c, s), ⟨c, hc, s, hs, rfl⟩, rfl⟩

/-- The size of the dedup output is the number of distinct covering sets. -/
theorem RemoveDupRoads_length (segs : List Seg) :
    (RemoveDupRoads segs).length = ((atoms segs).toFinset.image (cover segs)).card := by
  rw [RemoveDupRoads, delIdentical, delIdentAux_length]
  rw [List.toFinset_nil, Finset.sdiff_empty]
  rw [List.toFinset_eq_of_perm _ _ ((sortSpeedDesc_perm (dupRows segs)).map Prod.fst)]
  rw [dupRows_keys_toFinset]
  have h1 : (regions segs).toFinset = ((atoms segs).map (cover segs)).toFinset :=
    List.toFinset.ext (fun c => List.mem_dedup)
  rw [h1, list_toFinset_map]

/-- Two segments overlap when some atomic location lies on both. -/
def Overlap (s t : Seg) : Prop :=
  ∃ a, a ∈ s.geom ∧ a ∈ t.geom

/-- When geometries are pairwise equal-or-disjoint, the covering set of any
atom of `s` is the class of segments sharing `s`'s geometry. -/
theorem cover_eq_filter {segs : List Seg}
    (hed : ∀ s ∈ segs, ∀ t ∈ segs, s.geom = t.geom ∨ ∀ a ∈ s.geom, a ∉ t.geom)
    {s : Seg} {a : ℕ} (hs : s ∈ segs) (ha : a ∈ s.geom) :
    cover segs a = segs.filter (fun t => t.geom = s.geom) := by
  rw [cover]
  apply List.filter_congr
  intro t ht
  simp only [decide_eq_decide]
  constructor
  · intro hat
    rcases hed s hs t ht with h | h
    · exact h.symm
    · exact absurd hat (h a ha)
  · intro hgeq
    exact hgeq ▸ ha

/-- Under equal-or-disjoint nonempty geometries the distinct covering sets
correspond exactly to the distinct geometries. -/
theorem image_cover_eq {segs : List Seg}
    (hne : ∀ s ∈ segs, s.geom ≠ [])
    (hed : ∀ s ∈ segs, ∀ t ∈ segs, s.geom = t.geom ∨ ∀ a ∈ s.geom, a ∉ t.geom) :
    (atoms segs).toFinset.image (cover segs) =
      (segs.map Seg.geom).toFinset.image (fun g => segs.filter (fun t => t.geom = g)) := by
  ext c
  simp only [Finset.mem_image, List.mem_toFinset, List.mem_map]
  constructor
  · rintro ⟨a, ha, rfl⟩
    rw [atoms, List.mem_dedup, List.mem_flatMap] at ha
    rcases ha with ⟨s, hs, hsa⟩
    exact ⟨s.geom, ⟨s, hs, rfl⟩, (cover_eq_filter hed hs hsa).symm⟩
  · rintro ⟨g, ⟨s, hs, rfl⟩, rfl⟩
    rcases List.exists_mem_of_ne_nil s.geom (hne s hs) with ⟨a, ha⟩
    refine ⟨a, ?_, cover_eq_filter hed hs ha⟩
    rw [atoms, List.mem_dedup, List.mem_flatMap]
    exact ⟨s, hs, ha⟩

/-- Mapping a geometry to its class of segments is injective on the
geometries present in the input. -/
theorem card_image_filter_geom (segs : List Seg) :
    ((segs.map Seg.geom).toFinset.image
        (fun g => segs.filter (fun t => t.geom = g))).card =
      (segs.map Seg.geom).toFinset.card := by
  apply Finset.card_image_of_injOn
  intro g₁ hg₁ g₂ hg₂ heq
  simp only [Finset.coe_insert, List.coe_toFinset, Set.mem_setOf_eq, List.mem_map] at hg₁ hg₂
  rcases hg₁ with ⟨s₁, hs₁, rfl⟩
  have hmem : s₁ ∈ segs.filter (fun t => t.geom = s₁.geom) :=
    List.mem_filter.mpr ⟨hs₁, by simp⟩
  have heq' : segs.filter (fun t => t.geom = s₁.geom) = segs.filter (fun t => t.geom = g₂) := heq
  rw [heq'] at hmem
  exact (by simpa using (List.mem_filter.mp hmem).2 : s₁.geom = g₂)

theorem dedup_length_eq_iff {α : Type} [DecidableEq α] {l : List α} :
    l.dedup.length = l.length ↔ l.Nodup := by
  constructor
  · intro h
    have := (l.dedup_sublist.eq_of_length h) ▸ l.nodup_dedup
    exact this
  · intro h
    rw [List.dedup_eq_self.mpr h]

theorem pairwise_congr_mem {α : Type} {R S : α → α → Prop} :
    ∀ {l : List α}, (∀ a ∈ l, ∀ b ∈ l, (R a b ↔ S a b)) →
    (l.Pairwise R ↔ l.Pairwise S) := by
  intro l
  induction l with
  | nil => simp
  | cons x xs ih =>
    intro h
    simp only [List.pairwise_cons]
    constructor
    · rintro ⟨h1, h2⟩
      refine ⟨fun b hb => (h x (List.mem_cons_self _ _) b (List.mem_cons_of_mem _ hb)).mp (h1 b hb), ?_⟩
      exact (ih (fun a ha b hb =>
        h a (List.mem_cons_of_mem _ ha) b (List.mem_cons_of_mem _ hb))).mp h2
    · rintro ⟨h1, h2⟩
      refine ⟨fun b hb => (h x (List.mem_cons_self _ _) b (List.mem_cons_of_mem _ hb)).mpr (h1 b hb), ?_⟩
      exact (ih (fun a ha b hb =>
        h a (List.mem_cons_of_mem _ ha) b (List.mem_cons_of_mem _ hb))).mpr h2

/-- Under equal-or-disjoint nonempty geometries, the dedup output size is the
number of distinct geometries. -/
theorem RemoveDupRoads_length_eq_dedup {segs : List Seg}
    (hne : ∀ s ∈ segs, s.geom ≠ [])
    (hed : ∀ s ∈ segs, ∀ t ∈ segs, s.geom = t.geom ∨ ∀ a ∈ s.geom, a ∉ t.geom) :
    (RemoveDupRoads segs).length = (segs.map Seg.geom).dedup.length := by
  rw [RemoveDupRoads_length, image_cover_eq hne hed, card_image_filter_geom,
    List.card_toFinset]

/-! ## Shared helper facts about the rule functions -/

/-- The TIGER class-default speed table only produces positive speeds. -/
theorem Speed_pos (m r : String) : 0 < Speed m r := by
  unfold Speed
  split_ifs <;> norm_num

/-- The driving-code guard tuple is contained in the set of codes the
class-default table covers. -/
theorem osmDrivingCodes_subset {c : ℤ} (h : c ∈ osmDrivingCodes) :
    c ∈ osmSpeedCodes := by
  fin_cases h <;> decide

/-- A code outside all branches of the `mph` class table hits the `s = -1`
error catch. -/
theorem osmBase_eq_neg_one {c : ℤ} (hc : c ∉ osmSpeedCodes) : osmBase c = -1 := by
  have hne : ∀ x ∈ osmSpeedCodes, ¬(c = x) := fun x hx heq => hc (heq ▸ hx)
  have hmem : ∀ l : List ℤ, (∀ x ∈ l, x ∈ osmSpeedCodes) → c ∉ l :=
    fun l hl hcl => hc (hl c hcl)
  unfold osmBase
  rw [if_neg (hne 5111 (by decide)), if_neg (hne 5112 (by decide)),
    if_neg (hne 5113 (by decide)), if_neg (hne 5114 (by decide)),
    if_neg (hne 5115 (by decide)), if_neg (hmem _ (by decide)),
    if_neg (hne 5123 (by decide)), if_neg (hmem _ (by decide)),
    if_neg (hmem _ (by decide)), if_neg (hmem _ (by decide)),
    if_neg (hne 5143 (by decide)), if_neg (hne 5144 (by decide)),
    if_neg (hne 5145 (by decide)), if_neg (hne 5146 (by decide)),
    if_neg (hne 5147 (by decide)), if_neg (hmem _ (by decide))]

theorem dedup_replicate_of_ne_zero {α : Type} [DecidableEq α] (c : α) :
    ∀ n : ℕ, n ≠ 0 → (List.replicate n c).dedup = [c] := by
  intro n
  induction n with
  | zero => intro h; exact absurd rfl h
  | succ k ih =>
    intro _
    rw [List.replicate_succ]
    by_cases hk : k = 0
    · subst hk; simp
    · rw [List.dedup_cons_of_mem (by rw [List.mem_replicate]; exact ⟨hk, rfl⟩)]
      exact ih hk

/-! ## Claims -/

/-- C1 counterexample: the crowd-sourced classifier `mph` assigns the
negative sentinel `-1` — not the walking-pace fallback 3 and not a positive
speed — when no class mapping applies (here code 9999 with no usable posted
speed). -/
theorem c1_counterexample :
    mph 0 9999 0 = -1 ∧ mph 0 9999 0 < 0 ∧ ¬(0 < mph 0 9999 0) ∧
    mph 0 9999 0 ≠ 3 := by decide

/-- C1 amended: the role functions of all three sources only emit
Local/Ramp/Highway (0/1/2); the census table always assigns a positive speed;
state-centerline flagged records always get a positive table speed, with
unmapped classes and nonexistent segments mapped to 3; but the crowd-sourced
`mph` assigns the negative sentinel -1 (not 3) whenever no class mapping
applies and the posted speed is unusable. -/
theorem c1_amended :
    (∀ m : String, RmpHwy m = 0 ∨ RmpHwy m = 1 ∨ RmpHwy m = 2) ∧
    (∀ m : String, RmpHwyTiger m = 0 ∨ RmpHwyTiger m = 1 ∨ RmpHwyTiger m = 2) ∧
    (∀ c : ℤ, rmpHwy c = 0 ∨ rmpHwy c = 1 ∨ rmpHwy c = 2) ∧
    (∀ m r : String, 0 < Speed m r) ∧
    (∀ (m : String) (sp : Option ℤ) (v : ℤ), SpdUpd 1 m sp = some v → 0 < v) ∧
    (∀ (m : String) (sp : Option ℤ), SpdUpd (-1) m sp = some 3) ∧
    (∀ (m : String) (sp : Option ℤ), m ∉ vaTableCodes → SpdUpd 1 m sp = some 3) ∧
    (∀ ms ua c : ℤ, c ∉ osmSpeedCodes → mph ms c ua = -1) := by
  refine ⟨?_, ?_, ?_, Speed_pos, ?_, ?_, ?_, ?_⟩
  · intro m; unfold RmpHwy; split_ifs <;> norm_num
  · intro m; unfold RmpHwyTiger; split_ifs <;> norm_num
  · intro c; unfold rmpHwy; split_ifs <;> norm_num
  · intro m sp v h
    unfold SpdUpd at h
    rw [if_pos rfl] at h
    split_ifs at h <;> (rw [Option.some_inj] at h; omega)
  · intro m sp
    unfold SpdUpd
    norm_num
  · intro m sp hm
    simp only [vaTableCodes, List.mem_cons, List.not_mem_nil, or_false] at hm
    push_neg at hm
    unfold SpdUpd
    rw [if_pos rfl]
    split_ifs <;> simp_all
  · intro ms ua c hc
    have hnd : ¬(40 ≤ ms ∧ c ∈ osmDrivingCodes) := by
      rintro ⟨_, h⟩
      exact hc (osmDrivingCodes_subset h)
    unfold mph
    rw [if_neg hnd]
    show (if ua = 1 then if 30 < osmBase c then osmBase c - 10 else osmBase c
      else osmBase c) = -1
    rw [osmBase_eq_neg_one hc]
    split_ifs <;> omega

/-- C1 witness. -/
theorem c1_witness : ((9999:ℤ) ∉ osmSpeedCodes) ∧ mph 5 9999 1 = -1 :=
  ⟨by decide, c1_amended.2.2.2.2.2.2.2 5 1 9999 (by decide)⟩

/-- C2 counterexample: the crowd-sourced pipeline computes travel time with
constant 0.03728, not 0.037; at unit length and unit speed the two differ by
0.00028, far beyond tolerance 1e-9. -/
theorem c2_counterexample :
    tt 1 1 = 0.03728 ∧ TravTime 1 = 0.037 ∧ tt 1 1 ≠ TravTime 1 ∧
    tt 1 1 - TravTime 1 > 1 / 1000000000 := by
  refine ⟨by norm_num [tt], by norm_num [TravTime], ?_, ?_⟩ <;>
    norm_num [tt, TravTime]

/-- C2 amended: the state and census pipelines derive travel time as exactly
`0.037 / speed` (positive on the positive census speeds), while the
crowd-sourced pipeline uses `0.03728 * length / speed`, whose per-unit-length
value differs from `0.037 / speed` at every positive speed. -/
theorem c2_amended :
    (∀ s : ℤ, 0 < s → TravTime s = 0.037 / s ∧ 0 < TravTime s) ∧
    (∀ (len : ℚ) (s : ℤ), tt len s = 0.03728 * len / s) ∧
    (∀ s : ℤ, 0 < s → tt 1 s ≠ TravTime s) ∧
    (∀ m r : String, TravTime (Speed m r) = 0.037 / (Speed m r) ∧
      0 < TravTime (Speed m r)) := by
  have hpos : ∀ s : ℤ, 0 < s → 0 < TravTime s := by
    intro s hs
    rw [TravTime]
    exact div_pos (by norm_num) (by exact_mod_cast hs)
  refine ⟨fun s hs => ⟨rfl, hpos s hs⟩, fun len s => rfl, ?_, ?_⟩
  · intro s hs h
    rw [tt, TravTime] at h
    have hs0 : (s : ℚ) ≠ 0 := by exact_mod_cast hs.ne'
    rw [div_eq_div_iff hs0 hs0] at h
    have := mul_right_cancel₀ hs0 h
    norm_num at this
  · intro m r
    exact ⟨rfl, hpos _ (Speed_pos m r)⟩

/-- C2 witness. -/
theorem c2_witness :
    (0 < (55:ℤ)) ∧ TravTime 55 = 0.037 / 55 ∧ 0 < TravTime 55 :=
  ⟨by decide, c2_amended.1 55 (by decide)⟩

/-- C3 counterexample: the urban-speed-penalty is not idempotent — at the
reachable census speed 45 (class S1200 with no route-type match), one
application gives 35, two give 25. -/
theorem c3_counterexample :
    Speed "S1200" "M" = 45 ∧ urbanSpeed 45 = 35 ∧
    urbanSpeed (urbanSpeed 45) = 25 ∧
    urbanSpeed (urbanSpeed 45) ≠ urbanSpeed 45 := by decide

/-- C3 amended: applying the urban-speed-penalty twice agrees with applying
it once exactly for speeds of at most 40 mph; above 40 a second application
subtracts a second 10 mph penalty. -/
theorem c3_amended :
    ∀ s : ℤ, urbanSpeed (urbanSpeed s) = urbanSpeed s ↔ s ≤ 40 := by
  intro s
  unfold urbanSpeed
  split_ifs <;> omega

/-- C8: over the Y/N domain of `SEGMENT_EXISTS`, the posted speed is kept
(flag 0) exactly when the flag is "Y" and the speed is non-null, nonzero and
a multiple of 5; a record flagged `-1` ("N") always gets speed 3; a record
flagged 1 gets the class-default table value, independent of the posted
speed. -/
theorem c8_posted_speed (ex m : String) (sp : Option ℤ)
    (hex : ex = "Y" ∨ ex = "N") :
    (Flg ex sp = 0 ↔ ex = "Y" ∧ ∃ v, sp = some v ∧ v ≠ 0 ∧ v % 5 = 0) ∧
    (Flg ex sp = 0 → SpdUpd (Flg ex sp) m sp = sp) ∧
    (ex = "N" → SpdUpd (Flg ex sp) m sp = some 3) ∧
    (Flg ex sp = 1 → SpdUpd (Flg ex sp) m sp = SpdUpd 1 m none) := by
  rcases hex with rfl | rfl
  · refine ⟨?_, ?_, by intro h; exact absurd h (by decide), ?_⟩
    · cases sp with
      | none =>
        have hflg : Flg "Y" none = 1 := by
          unfold Flg
          rw [if_neg (by decide)]
        rw [hflg]
        simp
      | some v =>
        have hflg : Flg "Y" (some v) = if v = 0 ∨ v % 5 ≠ 0 then 1 else 0 := by
          unfold Flg
          rw [if_neg (by decide)]
        rw [hflg]
        by_cases hv : v = 0 ∨ v % 5 ≠ 0
        · rw [if_pos hv]
          simp only [true_and]
          constructor
          · intro h; exact absurd h (by decide)
          · rintro ⟨w, hw, hw0, hw5⟩
            rw [Option.some_inj] at hw
            subst hw
            rcases hv with h | h
            · exact absurd h hw0
            · exact absurd hw5 h
        · rw [if_neg hv]
          push_neg at hv
          exact ⟨fun _ => ⟨rfl, v, rfl, hv⟩, fun _ => rfl⟩
    · intro h
      rw [h]
      unfold SpdUpd
      rw [if_neg (by decide), if_neg (by decide)]
    · intro h
      rw [h]
      unfold SpdUpd
      rw [if_pos rfl, if_pos rfl]
  · have hf : Flg "N" sp = -1 := by
      unfold Flg
      rw [if_pos rfl]
    rw [hf]
    refine ⟨?_, ?_, ?_, ?_⟩
    · constructor
      · intro h; exact absurd h (by decide)
      · rintro ⟨h, -⟩; exact absurd h (by decide)
    · intro h; exact absurd h (by decide)
    · intro _
      unfold SpdUpd
      rw [if_neg (by decide), if_pos rfl]
    · intro h; exact absurd h (by decide)

/-- C8 witness. -/
theorem c8_witness :
    (("Y":String) = "Y" ∨ ("Y":String) = "N") ∧
    ((Flg "Y" (some 55) = 0 ↔
        ("Y":String) = "Y" ∧ ∃ v : ℤ, some 55 = some v ∧ v ≠ 0 ∧ v % 5 = 0) ∧
      (Flg "Y" (some 55) = 0 →
        SpdUpd (Flg "Y" (some 55)) "S1400" (some 55) = some 55) ∧
      (("Y":String) = "N" →
        SpdUpd (Flg "Y" (some 55)) "S1400" (some 55) = some 3) ∧
      (Flg "Y" (some 55) = 1 →
        SpdUpd (Flg "Y" (some 55)) "S1400" (some 55) = SpdUpd 1 "S1400" none)) :=
  ⟨Or.inl rfl, c8_posted_speed "Y" "S1400" (some 55) (Or.inl rfl)⟩

/-- C9 counterexample: an urban crowd-sourced segment whose speed comes from
the posted `maxspeed` (80 kph ≥ 40 on driving class 5113) is assigned 50 mph
with no 10 mph urban penalty, although 50 > 30 — the penalty is skipped
whenever the posted-speed branch is taken. -/
theorem c9_counterexample :
    mph 80 5113 1 = 50 ∧ (30:ℤ) < 50 ∧ mph 80 5113 1 ≠ 50 - 10 ∧
    mph 80 5113 1 = mph 80 5113 0 := by decide

/-- C9 amended: for the census source the executed urban adjustment is
exactly "subtract 10 when speed > 30, else unchanged"; for the crowd-sourced
source that same adjustment applies only on the class-default branch of
`mph` — when a usable posted `maxspeed` sets the speed, the urban flag has no
effect. -/
theorem c9_amended :
    (∀ s : ℤ, 30 < s → urbanSpeed s = s - 10) ∧
    (∀ s : ℤ, s ≤ 30 → urbanSpeed s = s) ∧
    (∀ ms c : ℤ, ¬(40 ≤ ms ∧ c ∈ osmDrivingCodes) →
      mph ms c 1 = urbanSpeed (osmBase c) ∧ mph ms c 0 = osmBase c) ∧
    (∀ ms c : ℤ, 40 ≤ ms → c ∈ osmDrivingCodes → mph ms c 1 = mph ms c 0) := by
  refine ⟨?_, ?_, ?_, ?_⟩
  · intro s h; rw [urbanSpeed, if_pos h]
  · intro s h; rw [urbanSpeed, if_neg (by omega)]
  · intro ms c h
    constructor
    · rw [mph, if_neg h, urbanSpeed]
      norm_num
    · rw [mph, if_neg h]
      norm_num
  · intro ms c h40 hc
    rw [mph, if_pos ⟨h40, hc⟩, mph, if_pos ⟨h40, hc⟩]

/-- C9 witness. -/
theorem c9_witness :
    (40 ≤ (80:ℤ)) ∧ ((5113:ℤ) ∈ osmDrivingCodes) ∧
    mph 80 5113 1 = mph 80 5113 0 :=
  ⟨by decide, by decide, c9_amended.2.2.2 80 5113 (by decide) (by decide)⟩

/-- C10: in all three source vocabularies the role tag is a function of the
functional-class code alone and has the same shape — interstate codes map to
Highway (2), connector/ramp codes to Ramp (1), everything else to Local (0);
the state and census mappings coincide. -/
theorem c10_role_mapping :
    (∀ m : String,
      (RmpHwy m = 2 ↔ (m = "S1100" ∨ m = "S1100HOV")) ∧
      (RmpHwy m = 1 ↔ m = "S1630") ∧
      (RmpHwy m = 0 ↔ ¬(m = "S1100" ∨ m = "S1100HOV" ∨ m = "S1630")) ∧
      RmpHwyTiger m = RmpHwy m) ∧
    (∀ c : ℤ,
      (rmpHwy c = 2 ↔ c = 5111) ∧
      (rmpHwy c = 1 ↔ c = 5131) ∧
      (rmpHwy c = 0 ↔ ¬(c = 5111 ∨ c = 5131))) := by
  constructor
  · intro m
    unfold RmpHwy RmpHwyTiger
    by_cases h1 : m = "S1100" ∨ m = "S1100HOV" <;>
      by_cases h2 : m = "S1630" <;>
      simp_all
  · intro c
    unfold rmpHwy
    split_ifs <;> constructor <;> constructor <;> omega

/-- Input for the C4 counterexample: two exactly coincident segments of equal
speed, the lexicographically larger id "B" first in input order. -/
def c4demo : List Seg := [⟨"B", 50, [1]⟩, ⟨"A", 50, [1]⟩]

/-- C4 counterexample: on a speed tie between exactly coincident segments the
dedup retains the first segment of the input (join) order — here id "B" —
not the lexicographically smaller id "A". -/
theorem c4_counterexample :
    (RemoveDupRoads c4demo).map (fun r => r.2.id) = ["B"] ∧ ("A" : String) < "B" :=
  ⟨by decide, String.lt_iff_toList_lt.mpr (by decide)⟩

/-- C4 amended: `RemoveDupRoads` is a deterministic function of the input
sequence; for two exactly coincident segments of equal speed it retains the
first segment in input order (regardless of ids). -/
theorem c4_amended (s t : Seg) (hg : s.geom = t.geom) (hne : s.geom ≠ [])
    (hsp : s.speed = t.speed) :
    RemoveDupRoads [s, t] = [([s, t], s)] := by
  have hmem_atoms : ∀ a, a ∈ atoms [s, t] ↔ a ∈ s.geom := by
    intro a
    rw [atoms, List.mem_dedup, List.mem_flatMap]
    constructor
    · rintro ⟨u, hu, hau⟩
      rcases List.mem_cons.mp hu with rfl | hu2
      · exact hau
      · rcases List.mem_cons.mp hu2 with rfl | hu3
        · exact hg ▸ hau
        · exact absurd hu3 (List.not_mem_nil u)
    · intro ha
      exact ⟨s, List.mem_cons_self _ _, ha⟩
  have hcov : ∀ a ∈ atoms [s, t], cover [s, t] a = [s, t] := by
    intro a ha
    have has : a ∈ s.geom := (hmem_atoms a).mp ha
    have hat : a ∈ t.geom := hg ▸ has
    rw [cover]
    rw [List.filter_cons_of_pos (by simpa using has),
      List.filter_cons_of_pos (by simpa using hat), List.filter_nil]
  have hats_ne : atoms [s, t] ≠ [] := by
    rcases List.exists_mem_of_ne_nil s.geom hne with ⟨a, ha⟩
    exact List.ne_nil_of_mem ((hmem_atoms a).mpr ha)
  have hreg : regions [s, t] = [[s, t]] := by
    rw [regions, List.map_congr_left hcov]
    have : (atoms [s, t]).map (fun _ => [s, t]) =
        List.replicate (atoms [s, t]).length [s, t] := List.map_const' _ _
    rw [this]
    exact dedup_replicate_of_ne_zero _ _
      (fun h => hats_ne (List.length_eq_zero.mp h))
  rw [RemoveDupRoads, dupRows, hreg]
  simp only [List.flatMap_cons, List.flatMap_nil, List.map_cons, List.map_nil,
    List.append_nil]
  rw [sortSpeedDesc]
  simp only [List.foldl_cons, List.foldl_nil]
  rw [insertDesc]
  rw [show insertDesc ([s, t], t) [([s, t], s)] =
      [([s, t], s), ([s, t], t)] by
    rw [insertDesc, if_neg (by rw [hsp]; exact lt_irrefl _), insertDesc]]
  rw [delIdentical, delIdentAux, if_neg (List.not_mem_nil _), delIdentAux,
    if_pos (List.mem_cons_self _ _), delIdentAux]

/-- C4 witness. -/
theorem c4_witness :
    ((⟨"B", 50, [1]⟩ : Seg).geom = (⟨"A", 50, [1]⟩ : Seg).geom) ∧
    ((⟨"B", 50, [1]⟩ : Seg).geom ≠ []) ∧
    ((⟨"B", 50, [1]⟩ : Seg).speed = (⟨"A", 50, [1]⟩ : Seg).speed) ∧
    RemoveDupRoads [⟨"B", 50, [1]⟩, ⟨"A", 50, [1]⟩] =
      [([⟨"B", 50, [1]⟩, ⟨"A", 50, [1]⟩], ⟨"B", 50, [1]⟩)] :=
  ⟨rfl, by decide, rfl, c4_amended ⟨"B", 50, [1]⟩ ⟨"A", 50, [1]⟩ rfl (by decide) rfl⟩

/-- Input for the C5 counterexample: two partially overlapping segments. -/
def c5demo : List Seg := [⟨"A", 55, [1, 2]⟩, ⟨"B", 45, [2, 3]⟩]

/-- C5 counterexample: two partially overlapping segments are planarized into
three overlap regions, so the dedup output has three records — strictly more
than the two input segments, refuting `len(dedupe(segments)) <= len(segments)`
in general. -/
theorem c5_counterexample :
    (RemoveDupRoads c5demo).length = 3 ∧ c5demo.length = 2 ∧
    ¬((RemoveDupRoads c5demo).length ≤ c5demo.length) := by decide

/-- C5 amended: when the input geometries are nonempty and pairwise exactly
coincident or disjoint (the duplicate-coverage situation the step is built
for), the dedup output size is at most the input size, with equality exactly
when no two segments overlap; partial overlaps (see the counterexample) can
enlarge the output instead. -/
theorem c5_amended (segs : List Seg)
    (hne : ∀ s ∈ segs, s.geom ≠ [])
    (hed : ∀ s ∈ segs, ∀ t ∈ segs, s.geom = t.geom ∨ ∀ a ∈ s.geom, a ∉ t.geom) :
    (RemoveDupRoads segs).length ≤ segs.length ∧
    ((RemoveDupRoads segs).length = segs.length ↔
      segs.Pairwise (fun s t => ¬Overlap s t)) := by
  have hlen := RemoveDupRoads_length_eq_dedup hne hed
  have hmaplen : (segs.map Seg.geom).length = segs.length := List.length_map _ _
  constructor
  · rw [hlen]
    calc (segs.map Seg.geom).dedup.length
        ≤ (segs.map Seg.geom).length := (segs.map Seg.geom).dedup_sublist.length_le
      _ = segs.length := hmaplen
  · rw [hlen, ← hmaplen]
    rw [dedup_length_eq_iff]
    rw [show (segs.map Seg.geom).Nodup ↔
        segs.Pairwise (fun a b => a.geom ≠ b.geom) from List.pairwise_map]
    apply pairwise_congr_mem
    intro a ha b hb
    constructor
    · intro hgne hov
      rcases hov with ⟨x, hxa, hxb⟩
      rcases hed a ha b hb with h | h
      · exact hgne h
      · exact h x hxa hxb
    · intro hnov hgeq
      rcases List.exists_mem_of_ne_nil a.geom (hne a ha) with ⟨x, hx⟩
      exact hnov ⟨x, hx, hgeq ▸ hx⟩

/-- C5 witness. -/
theorem c5_witness :
    (∀ s ∈ [(⟨"A", 55, [1]⟩ : Seg), ⟨"B", 45, [2]⟩], s.geom ≠ []) ∧
    (∀ s ∈ [(⟨"A", 55, [1]⟩ : Seg), ⟨"B", 45, [2]⟩],
      ∀ t ∈ [(⟨"A", 55, [1]⟩ : Seg), ⟨"B", 45, [2]⟩],
      s.geom = t.geom ∨ ∀ a ∈ s.geom, a ∉ t.geom) ∧
    ((RemoveDupRoads [⟨"A", 55, [1]⟩, ⟨"B", 45, [2]⟩]).length ≤
        ([(⟨"A", 55, [1]⟩ : Seg), ⟨"B", 45, [2]⟩]).length ∧
      ((RemoveDupRoads [⟨"A", 55, [1]⟩, ⟨"B", 45, [2]⟩]).length =
          ([(⟨"A", 55, [1]⟩ : Seg), ⟨"B", 45, [2]⟩]).length ↔
        ([(⟨"A", 55, [1]⟩ : Seg), ⟨"B", 45, [2]⟩]).Pairwise
          (fun s t => ¬Overlap s t))) :=
  ⟨by decide, by decide,
    c5_amended [⟨"A", 55, [1]⟩, ⟨"B", 45, [2]⟩] (by decide) (by decide)⟩

/-- C6: a ramp endpoint that touches both a highway and a local road yields
exactly one junction point at that location, tagged with the ramp-to-highway
value 1 — case 1 is appended first and `DeleteIdentical` keeps the first
point per location, so it takes precedence over the ramp-to-local tag. -/
theorem c6_junction_precedence (roads : List Rd) (p : ℕ)
    (hr : ∃ r ∈ roads, r.mtfcc = "S1630" ∧ p ∈ endpoints r)
    (hh : ∃ h ∈ roads, h.mtfcc = "S1100" ∧ p ∈ h.pts)
    (_hl : ∃ l ∈ roads, ¬(l.mtfcc = "S1100" ∨ l.mtfcc = "S1630") ∧ p ∈ l.pts) :
    (RampPts roads).filter (fun q => q.1 = p) = [(p, 1)] := by
  have hp1 : (p, (1:ℤ)) ∈ case1Pts roads := by
    rw [case1Pts, List.mem_map]
    refine ⟨p, List.mem_filter.mpr ⟨?_, ?_⟩, rfl⟩
    · rcases hr with ⟨r, hrr, hrm, hrp⟩
      rw [rampEnds, List.mem_flatMap]
      exact ⟨r, List.mem_filter.mpr ⟨hrr, by simp [hrm]⟩, hrp⟩
    · rcases hh with ⟨h, hhr, hhm, hhp⟩
      simp only [touches, List.any_eq_true, decide_eq_true_eq]
      exact ⟨h, List.mem_filter.mpr ⟨hhr, by simp [hhm]⟩, hhp⟩
  have hkeep : (p, (1:ℤ)) ∈ RampPts roads := by
    rw [RampPts, delIdentical, List.append_assoc, List.append_assoc]
    apply delIdentAux_keeps (fun q => q.1) (case1Pts roads) _ [] p (p, 1)
    · exact ⟨(p, 1), hp1, rfl⟩
    · intro y hy hyp
      rw [case1Pts, List.mem_map] at hy
      rcases hy with ⟨q, _, rfl⟩
      simp only at hyp
      rw [hyp]
    · exact List.not_mem_nil p
  have hnodup : ((RampPts roads).map (fun q : ℕ × ℤ => q.1)).Nodup :=
    (delIdentAux_keys_nodup (fun q : ℕ × ℤ => q.1) []
      (case1Pts roads ++ case2Pts roads ++ case3Pts roads ++ case4Pts roads)).1
  exact delIdentical_filter_key_eq (fun q : ℕ × ℤ => q.1) hnodup hkeep

/-- Input for the C6 witness. -/
def c6demo : List Rd := [⟨"S1630", [1, 2]⟩, ⟨"S1100", [2, 3]⟩, ⟨"S1400", [2, 4]⟩]

/-- C6 witness. -/
theorem c6_witness :
    (∃ r ∈ c6demo, r.mtfcc = "S1630" ∧ 2 ∈ endpoints r) ∧
    (∃ h ∈ c6demo, h.mtfcc = "S1100" ∧ 2 ∈ h.pts) ∧
    (∃ l ∈ c6demo, ¬(l.mtfcc = "S1100" ∨ l.mtfcc = "S1630") ∧ 2 ∈ l.pts) ∧
    (RampPts c6demo).filter (fun q => q.1 = 2) = [(2, 1)] :=
  ⟨by decide, by decide, by decide,
    c6_junction_precedence c6demo 2 (by decide) (by decide) (by decide)⟩

/-- Input for the C7 counterexample: location 2 is a ramp endpoint on a
highway (case 1); location 7 is a dissolved-highway endpoint meeting a ramp
mid-vertex (case 2 only, since 7 is not a ramp endpoint). -/
def c7demo : List Rd :=
  [⟨"S1100", [1, 2]⟩, ⟨"S1630", [2, 5]⟩, ⟨"S1100", [6, 7]⟩, ⟨"S1630", [8, 7, 9]⟩]

/-- C7 counterexample: case 1 and case 2 are both emitted with the same tag
value 1 — the junction at 7 arises only from case 2 (7 is not a ramp
endpoint) yet carries the case-1 tag — so the four cases do not produce four
distinct type values. -/
theorem c7_counterexample :
    RampPts c7demo = [(2, 1), (7, 1)] ∧
    (2, (1:ℤ)) ∈ case1Pts c7demo ∧ (7, (1:ℤ)) ∈ case2Pts c7demo ∧
    (7:ℕ) ∉ rampEnds c7demo ∧
    case3Pts c7demo = [] ∧ case4Pts c7demo = [] := by decide

/-- C7 amended: the code assigns only three distinct tag values to the four
topological cases — ramp-on-highway endpoints and dissolved-highway ends on
ramps both get 1, ramp-on-local endpoints get 2, and highway dead ends on
local roads get 3 — and the output is the first-kept deduplication of the
four sets in that order. -/
theorem c7_amended (roads : List Rd) :
    (∀ x ∈ case1Pts roads, x.2 = 1) ∧ (∀ x ∈ case2Pts roads, x.2 = 1) ∧
    (∀ x ∈ case3Pts roads, x.2 = 2) ∧ (∀ x ∈ case4Pts roads, x.2 = 3) ∧
    RampPts roads =
      delIdentical (fun q => q.1)
        (case1Pts roads ++ case2Pts roads ++ case3Pts roads ++ case4Pts roads) := by
  refine ⟨?_, ?_, ?_, ?_, rfl⟩
  · intro x hx
    rcases List.mem_map.mp hx with ⟨q, -, rfl⟩
    rfl
  · intro x hx
    rcases List.mem_map.mp hx with ⟨q, -, rfl⟩
    rfl
  · intro x hx
    rcases List.mem_map.mp hx with ⟨q, -, rfl⟩
    rfl
  · intro x hx
    rcases List.mem_map.mp hx with ⟨q, -, rfl⟩
    rfl

/-- C7 witness. -/
theorem c7_witness :
    ((2, (1:ℤ)) ∈ case1Pts c7demo) ∧ ((2:ℕ), (1:ℤ)).2 = 1 :=
  ⟨by decide, (c7_amended c7demo).1 (2, 1) (by decide)⟩

end RCLTools
